import Mathlib

/-!
A shallow embedding of the gocc compiler (a small C compiler written in Go:
lexer.go, parser.go, types.go and the code generator) together with theorems
checking the natural-language specification against the code.

Modelling conventions:
  * the Go source string is a `List Char` (the inputs of interest are ASCII,
    where Go's byte indexing and our list indexing agree);
  * `os.Exit(1)` after a diagnostic is `CErr.exited msg`;
  * a nil-pointer dereference (a Go runtime panic) is `CErr.panicked`;
  * Go's unbounded loops and recursions take an explicit fuel argument;
    running out of fuel gives `CErr.outOfFuel` / `TokResult.outOfFuel`,
    which never happens for sufficiently large fuel on terminating runs;
  * Go linked lists (tokens, AST statement chains, the locals list) are
    Lean lists, in the same order (head = first element of the Go list).
-/

namespace Gocc

/-! ## Lexer (lexer.go) -/

/-- Token kinds, from the `TokenKind` enumeration in lexer.go. -/
inductive TokenKind where
  | ADD      -- +
  | SUB      -- -
  | ASTERISK -- *
  | DIV      -- /
  | ASG      -- =
  | EQL      -- ==
  | NOT      -- !
  | NEQ      -- !=
  | LSS      -- <
  | LEQ      -- <=
  | GTR      -- >
  | GEQ      -- >=
  | AND      -- &
  | LPAREN   -- (
  | RPAREN   -- )
  | LBRACE   -- \x7b
  | RBRACE   -- \x7d
  | SEMI     -- ;
  | COMMA    -- ,
  | IDENT    -- identifier
  | RETURN   -- return
  | IF       -- if
  | ELSE     -- else
  | FOR      -- for
  | WHILE    -- while
  | INT      -- int
  | NUM      -- number
  | EOF      -- EOF
  deriving DecidableEq, Repr

/-- The `Token` struct of lexer.go.  The Go `next` pointer is replaced by
list structure; `lexeme` is the substring `source[begin:begin+length]`,
materialised at construction exactly as `NewToken` does. -/
structure Tok where
  kind : TokenKind
  value : Int
  begin : Nat
  length : Nat
  lexeme : String
  deriving DecidableEq, Repr

/-- `NewToken(kind, begin, end)` from lexer.go. -/
def NewToken (src : List Char) (kind : TokenKind) (b e : Nat) : Tok :=
  { kind := kind
    value := 0
    begin := b
    length := e - b
    lexeme := String.mk ((src.drop b).take (e - b)) }

/-- The comparison loop inside `lookahead`: Go's `toklen` ends up being
`1 +` the number of leading characters of `expected` that match the source
at positions `p+1, p+2, …` (the loop breaks at the first mismatch). -/
def matchlen (src : List Char) (q : Nat) : List Char → Nat
  | [] => 0
  | e :: es => if (src.get? q).getD ' ' = e then 1 + matchlen src (q + 1) es else 0

/-- `lookahead(p, expected...)` from lexer.go (lines 65–79). Returns `-1`
when `p + n >= len(source)` (with `n = len(expected)`), otherwise Go's
`toklen`: one more than the number of matching lookahead characters. -/
def lookahead (src : List Char) (p : Nat) (expected : List Char) : Int :=
  if src.length ≤ p + expected.length then -1
  else 1 + (matchlen src (p + 1) expected : Int)

/-- `unicode.IsSpace(rune(source[p]))` where `source[p]` is a byte, so the
rune is a Latin-1 code point; on that range `IsSpace` accepts exactly
`'\t' '\n' '\v' '\f' '\r' ' '` and the two code points U+0085, U+00A0. -/
def isSpaceGo (c : Char) : Bool :=
  c = ' ' || c = '\t' || c = '\n' || c.toNat = 11 || c.toNat = 12 ||
    c = '\r' || c.toNat = 0x85 || c.toNat = 0xA0

/-- `unicode.IsDigit(rune(source[p]))` on a Latin-1 code point: exactly the
ASCII digits (no other Unicode `Nd` digit is below U+0100). -/
def isDigitGo (c : Char) : Bool := '0' ≤ c && c ≤ '9'

/-- `isLetter` from lexer.go (lines 247–249). -/
def isLetter (c : Char) : Bool :=
  c = '_' || ('a' ≤ c && c ≤ 'z') || ('A' ≤ c && c ≤ 'Z')

/-- `isDigit` from lexer.go (lines 251–253). -/
def isDigit (c : Char) : Bool := '0' ≤ c && c ≤ '9'

/-- The `keywords` map of lexer.go. -/
def keywords (s : String) : Option TokenKind :=
  if s = "return" then some .RETURN
  else if s = "if" then some .IF
  else if s = "else" then some .ELSE
  else if s = "for" then some .FOR
  else if s = "while" then some .WHILE
  else if s = "int" then some .INT
  else none

/-- Decimal value of a digit lexeme, as computed by `strconv.Atoi`. -/
def digitsVal (l : List Char) : Nat :=
  l.foldl (fun acc c => acc * 10 + (c.toNat - '0'.toNat)) 0

/-- What one iteration of the `tokenize` loop body does, before the trailing
`curr = curr.next` bookkeeping is taken into account:
  * `skip p'` — only `p` advanced (whitespace), `curr` untouched;
  * `emit t p'` — `curr.next = t` was assigned and `p` advanced to `p'`
    (followed by `curr = curr.next`);
  * `empty` — an empty `case` body was selected: neither a token was
    emitted nor `p` advanced, but `curr = curr.next` still runs;
  * `exit` — `os.Exit(1)` (invalid token, or `strconv.Atoi` overflow). -/
inductive Step where
  | skip (p' : Nat)
  | emit (t : Tok) (p' : Nat)
  | empty
  | exit
  deriving DecidableEq, Repr

/-- The body of the scanning loop of `tokenize` (lexer.go lines 87–233) at
position `p`, where `c = source[p]`.  The cascade of cases mirrors the Go
`switch` in source order. -/
def tokStep (src : List Char) (p : Nat) (c : Char) : Step :=
  if isSpaceGo c then .skip (p + 1)
  else if isDigitGo c then
    let p' := p + ((src.drop p).takeWhile isDigitGo).length
    let lex := (src.drop p).take (p' - p)
    -- strconv.Atoi fails (and the compiler exits) on a 64-bit overflow
    if digitsVal lex ≤ 2 ^ 63 - 1 then
      .emit { NewToken src .NUM p p' with value := (digitsVal lex : Int) } p'
    else .exit
  else if c = '+' then
    if lookahead src p ['+'] = 2 then .empty
    else if lookahead src p ['='] = 2 then .empty
    else if lookahead src p [] = 1 then .emit (NewToken src .ADD p (p + 1)) (p + 1)
    else .empty
  else if c = '-' then
    if lookahead src p ['>'] = 2 then .empty
    else if lookahead src p ['-'] = 2 then .empty
    else if lookahead src p ['='] = 2 then .empty
    else if lookahead src p [] = 1 then .emit (NewToken src .SUB p (p + 1)) (p + 1)
    else .empty
  else if c = '*' then
    if lookahead src p ['='] = 2 then .empty
    else if lookahead src p [] = 1 then .emit (NewToken src .ASTERISK p (p + 1)) (p + 1)
    else .empty
  else if c = '/' then
    if lookahead src p ['='] = 2 then .empty
    else if lookahead src p [] = 1 then .emit (NewToken src .DIV p (p + 1)) (p + 1)
    else .empty
  else if c = '=' then
    if lookahead src p ['='] = 2 then .emit (NewToken src .EQL p (p + 2)) (p + 2)
    else if lookahead src p [] = 1 then .emit (NewToken src .ASG p (p + 1)) (p + 1)
    else .empty
  else if c = '!' then
    if lookahead src p ['='] = 2 then .emit (NewToken src .NEQ p (p + 2)) (p + 2)
    else if lookahead src p [] = 1 then .emit (NewToken src .NOT p (p + 1)) (p + 1)
    else .empty
  else if c = '<' then
    if lookahead src p ['<', '='] = 3 then .empty
    else if lookahead src p ['<'] = 2 then .empty
    else if lookahead src p ['='] = 2 then .emit (NewToken src .LEQ p (p + 2)) (p + 2)
    else if lookahead src p [] = 1 then .emit (NewToken src .LSS p (p + 1)) (p + 1)
    else .empty
  else if c = '>' then
    if lookahead src p ['>', '='] = 3 then .empty
    else if lookahead src p ['>'] = 2 then .empty
    else if lookahead src p ['='] = 2 then .emit (NewToken src .GEQ p (p + 2)) (p + 2)
    else if lookahead src p [] = 1 then .emit (NewToken src .GTR p (p + 1)) (p + 1)
    else .empty
  else if c = '&' then
    if lookahead src p ['&'] = 2 then .empty
    else if lookahead src p ['='] = 2 then .empty
    else if lookahead src p [] = 1 then .emit (NewToken src .AND p (p + 1)) (p + 1)
    else .empty
  else if c = '(' then .emit (NewToken src .LPAREN p (p + 1)) (p + 1)
  else if c = ')' then .emit (NewToken src .RPAREN p (p + 1)) (p + 1)
  else if c = '{' then .emit (NewToken src .LBRACE p (p + 1)) (p + 1)
  else if c = '}' then .emit (NewToken src .RBRACE p (p + 1)) (p + 1)
  else if c = ';' then .emit (NewToken src .SEMI p (p + 1)) (p + 1)
  else if c = ',' then .emit (NewToken src .COMMA p (p + 1)) (p + 1)
  else if isLetter c then
    let p' := p + ((src.drop p).takeWhile (fun c => isLetter c || isDigit c)).length
    let lex := String.mk ((src.drop p).take (p' - p))
    match keywords lex with
    | some k => .emit (NewToken src k p p') p'
    | none => .emit (NewToken src .IDENT p p') p'
  else .exit

/-- Result of running `tokenize`: a token list ending in the EOF token, a
runtime panic (nil dereference of `curr`), a diagnostic followed by
`os.Exit(1)`, or fuel exhaustion (a modelling artefact). -/
inductive TokResult where
  | ok (toks : List Tok)
  | panicked
  | exited
  | outOfFuel
  deriving DecidableEq, Repr

/-- The scanning loop of `tokenize`.  `currNil` records whether the Go
variable `curr` is currently nil: the empty `case` bodies do not append a
token, so the trailing `curr = curr.next` makes `curr` nil; any later use
of `curr` (either `curr.next = …` or reading `curr.next`) then panics. -/
def tokenizeLoop (src : List Char) : Nat → Nat → Bool → List Tok → TokResult
  | 0, _, _, _ => .outOfFuel
  | fuel + 1, p, currNil, acc =>
    match src.get? p with
    | some c =>
      match tokStep src p c with
      | .skip p' => tokenizeLoop src fuel p' currNil acc
      | .emit t p' =>
        if currNil then .panicked
        else tokenizeLoop src fuel p' false (acc ++ [t])
      | .empty => if currNil then .panicked else tokenizeLoop src fuel p true acc
      | .exit => .exited
    | none =>
      -- curr.next = NewToken(EOF, p, p)
      if currNil then .panicked else .ok (acc ++ [NewToken src .EOF p p])

/-- `tokenize` from lexer.go, on a whole source string.  The fuel
`2 * length + 2` dominates the number of loop iterations: every iteration
either advances `p`, or is an empty case, after which the very next
iteration panics. -/
def tokenize (s : String) : TokResult :=
  tokenizeLoop s.toList (2 * s.toList.length + 2) 0 false []

/-! ### Lexer lemmas -/

theorem get?_lt_length {src : List Char} {q : Nat} {c : Char}
    (h : src.get? q = some c) : q < src.length := by
  by_contra hq
  rw [List.get?_eq_none.mpr (Nat.le_of_not_lt hq)] at h
  exact Option.noConfusion h

theorem lookahead_single {src : List Char} {p : Nat} {b : Char}
    (h2 : src.get? (p + 1) = some b) : lookahead src p [b] = 2 := by
  have hlt : p + 1 < src.length := get?_lt_length h2
  rw [List.get?_eq_getElem?] at h2
  unfold lookahead
  rw [if_neg (by simpa using Nat.not_le.mpr hlt)]
  simp [matchlen, h2]

theorem lookahead_single_of_ne (b : Char) {src : List Char} {p : Nat} {c : Char}
    (h2 : src.get? (p + 1) = some c) (hne : c ≠ b) :
    lookahead src p [b] = 1 := by
  have hlt : p + 1 < src.length := get?_lt_length h2
  rw [List.get?_eq_getElem?] at h2
  unfold lookahead
  rw [if_neg (by simpa using Nat.not_le.mpr hlt)]
  simp [matchlen, h2, hne]

theorem lookahead_pair_ne_three (b1 b2 : Char) {src : List Char} {p : Nat} {c : Char}
    (h2 : src.get? (p + 1) = some c) (hne : c ≠ b1) :
    lookahead src p [b1, b2] ≠ 3 := by
  rw [List.get?_eq_getElem?] at h2
  unfold lookahead
  split
  · decide
  · simp [matchlen, h2, hne]

/-- At a position whose next character is `=`, the `'='` case of the scanner
emits one EQL token of length two. -/
theorem tokStep_eql {src : List Char} {p : Nat}
    (h2 : src.get? (p + 1) = some '=') :
    tokStep src p '=' = .emit (NewToken src .EQL p (p + 2)) (p + 2) := by
  simp [tokStep, isSpaceGo, isDigitGo, lookahead_single h2]

/-- At a position whose next character is `=`, the `'!'` case of the scanner
emits one NEQ token of length two. -/
theorem tokStep_neq {src : List Char} {p : Nat}
    (h2 : src.get? (p + 1) = some '=') :
    tokStep src p '!' = .emit (NewToken src .NEQ p (p + 2)) (p + 2) := by
  simp [tokStep, isSpaceGo, isDigitGo, lookahead_single h2]

/-- At a position whose next character is `=`, the `'<'` case of the scanner
emits one LEQ token of length two (the `<<=` and `<<` probes fail first). -/
theorem tokStep_leq {src : List Char} {p : Nat}
    (h2 : src.get? (p + 1) = some '=') :
    tokStep src p '<' = .emit (NewToken src .LEQ p (p + 2)) (p + 2) := by
  have h3 := lookahead_pair_ne_three '<' '=' h2 (by decide)
  have h4 := lookahead_single_of_ne '<' h2 (by decide)
  simp [tokStep, isSpaceGo, isDigitGo, lookahead_single h2, h3, h4]

/-- At a position whose next character is `=`, the `'>'` case of the scanner
emits one GEQ token of length two (the `>>=` and `>>` probes fail first). -/
theorem tokStep_geq {src : List Char} {p : Nat}
    (h2 : src.get? (p + 1) = some '=') :
    tokStep src p '>' = .emit (NewToken src .GEQ p (p + 2)) (p + 2) := by
  have h3 := lookahead_pair_ne_three '>' '=' h2 (by decide)
  have h4 := lookahead_single_of_ne '>' h2 (by decide)
  simp [tokStep, isSpaceGo, isDigitGo, lookahead_single h2, h3, h4]

/-! ### Claim theorems: lexer -/

/-- C2: the claim says the unsupported operator prefixes `++`, `+=`, `->`,
`--`, `-=`, `*=`, `/=`, `<<`, `<<=`, `>>`, `>>=`, `&&`, `&=` are consumed
without a token and scanning continues normally up to the END token.  The
code instead takes an empty `case` body that advances neither `p` nor
appends a token, then `curr = curr.next` makes `curr` nil, and the next
loop iteration (still at the same `p`) dereferences the nil `curr`: a
runtime panic.  Each listed prefix crashes the tokenizer. -/
theorem c2_unsupported_prefixes_panic :
    tokenize "1++2" = .panicked ∧ tokenize "a+=1" = .panicked ∧
    tokenize "a->b" = .panicked ∧ tokenize "1--2" = .panicked ∧
    tokenize "a-=1" = .panicked ∧ tokenize "a*=1" = .panicked ∧
    tokenize "a/=1" = .panicked ∧ tokenize "a<<b" = .panicked ∧
    tokenize "a<<=1" = .panicked ∧ tokenize "a>>b" = .panicked ∧
    tokenize "a>>=1" = .panicked ∧ tokenize "a&&b" = .panicked ∧
    tokenize "a&=1" = .panicked := by
  refine ⟨?_, ?_, ?_, ?_, ?_, ?_, ?_, ?_, ?_, ?_, ?_, ?_, ?_⟩ <;> decide

/-- C3: whenever the two characters `==`, `!=`, `<=` or `>=` stand at the
scanning position, the loop body emits a single two-character token (EQL,
NEQ, LEQ, GEQ) spanning both characters and resumes after them — also when
the second character is the last character of the source, since the only
constraint is that position `p+1` exists. -/
theorem c3_maximal_munch_two_char_operators :
    ∀ (src : List Char) (p : Nat),
      (src.get? p = some '=' → src.get? (p + 1) = some '=' →
        tokStep src p '=' = .emit (NewToken src .EQL p (p + 2)) (p + 2)) ∧
      (src.get? p = some '!' → src.get? (p + 1) = some '=' →
        tokStep src p '!' = .emit (NewToken src .NEQ p (p + 2)) (p + 2)) ∧
      (src.get? p = some '<' → src.get? (p + 1) = some '=' →
        tokStep src p '<' = .emit (NewToken src .LEQ p (p + 2)) (p + 2)) ∧
      (src.get? p = some '>' → src.get? (p + 1) = some '=' →
        tokStep src p '>' = .emit (NewToken src .GEQ p (p + 2)) (p + 2)) :=
  fun _ _ =>
    ⟨fun _ h2 => tokStep_eql h2, fun _ h2 => tokStep_neq h2,
     fun _ h2 => tokStep_leq h2, fun _ h2 => tokStep_geq h2⟩

/-- Witness for C3 at the boundary: in the two-character source `==`, the
operator's second character is the last character of the source, and one
EQL token is emitted for both. -/
theorem c3_maximal_munch_two_char_operators_witness :
    tokStep ['=', '='] 0 '=' = .emit (NewToken ['=', '='] .EQL 0 2) 2 :=
  (c3_maximal_munch_two_char_operators ['=', '='] 0).1 rfl rfl

/-- C4 counterexample: the claim says a two-character operator ending at the
final source character is never tokenized as one multi-character token.  On
`a==`, where `==` occupies the last two characters, the tokenizer emits a
single EQL token of length 2 whose last character is the final character. -/
theorem c4_counterexample_eql_at_eof :
    tokenize "a==" =
      .ok [⟨.IDENT, 0, 0, 1, "a"⟩, ⟨.EQL, 0, 1, 2, "=="⟩, ⟨.EOF, 0, 3, 0, ""⟩] := by
  decide

/-- C4 amended: `lookahead`'s guard `p+n >= len(source)` is exactly the
bounds check for the `n` characters it examines at positions `p+1 … p+n`,
so a two-character operator whose second character is the final character
of the source (`p + 2 = len`) IS recognized and emitted as one token. -/
theorem c4_amended_lookahead_bound_is_exact :
    ∀ (src : List Char) (p : Nat), p + 2 = src.length →
      src.get? (p + 1) = some '=' →
      lookahead src p ['='] = 2 ∧
      tokStep src p '=' = .emit (NewToken src .EQL p (p + 2)) (p + 2) :=
  fun _ _ _ h2 => ⟨lookahead_single h2, tokStep_eql h2⟩

/-- Witness for the amended C4 on the concrete source `a==`. -/
theorem c4_amended_lookahead_bound_is_exact_witness :
    lookahead ['a', '=', '='] 1 ['='] = 2 ∧
    tokStep ['a', '=', '='] 1 '=' = .emit (NewToken ['a', '=', '='] .EQL 1 3) 3 :=
  c4_amended_lookahead_bound_is_exact ['a', '=', '='] 1 rfl rfl

/-! ## Types (types.go) -/

/-- The `Type` struct of types.go: a tagged variant over INT and PTR(base).
Go's `Type.name` field (the declarator's identifier token, stored by
`declarator` for diagnostics) is returned alongside the type by our
`declarator` instead of being mutated into the shared `Type` value. -/
inductive Ty where
  | tpint
  | tpptr (base : Ty)
  deriving DecidableEq, Repr

/-- `isint` from types.go: `t.kind == TPINT`. -/
def isint : Ty → Bool
  | .tpint => true
  | .tpptr _ => false

/-- `ptrto` from types.go. -/
def ptrto (base : Ty) : Ty := .tpptr base

/-- The Go `Type.base` field: nil (`none`) unless the type is a pointer. -/
def Ty.base : Ty → Option Ty
  | .tpint => none
  | .tpptr b => some b

/-! ## AST (parser.go, declaration-aware version) -/

/-- `NodeKind` from parser.go. -/
inductive NodeKind where
  | NodeAdd | NodeSub | NodeMul | NodeDiv
  | NodeEql | NodeNeq | NodeLss | NodeLeq
  | NodeAsg | NodeNeg | NodeAddr | NodeDeref
  | NodeVar | NodeNum
  | NodeExprStmt | NodeReturn | NodeBlock | NodeIf | NodeFor
  deriving DecidableEq, Repr

/-- `Object` from parser.go: a local variable.  The `next` pointer becomes
list structure of the `locals` list. -/
structure Object where
  name : String
  tp : Ty
  offset : Int
  deriving DecidableEq, Repr

/-- `Node` from parser.go, one constructor carrying every field of the Go
struct (the `next` chain of statement lists is the list structure of
`body`; `varRef` is Go's `variable` field, renamed because `variable` is a
Lean keyword). -/
inductive Node where
  | mk
    (kind : NodeKind)
    (lhs rhs : Option Node)
    (tp : Option Ty)
    (token : Tok)
    (condition thenBranch elseBranch initializer increment : Option Node)
    (body : List Node)
    (varRef : Option Object)
    (value : Int)

def Node.kind : Node → NodeKind
  | .mk k _ _ _ _ _ _ _ _ _ _ _ _ => k

def Node.lhs : Node → Option Node
  | .mk _ l _ _ _ _ _ _ _ _ _ _ _ => l

def Node.rhs : Node → Option Node
  | .mk _ _ r _ _ _ _ _ _ _ _ _ _ => r

def Node.tp : Node → Option Ty
  | .mk _ _ _ t _ _ _ _ _ _ _ _ _ => t

def Node.token : Node → Tok
  | .mk _ _ _ _ tok _ _ _ _ _ _ _ _ => tok

def Node.condition : Node → Option Node
  | .mk _ _ _ _ _ c _ _ _ _ _ _ _ => c

def Node.thenBranch : Node → Option Node
  | .mk _ _ _ _ _ _ t _ _ _ _ _ _ => t

def Node.elseBranch : Node → Option Node
  | .mk _ _ _ _ _ _ _ e _ _ _ _ _ => e

def Node.initializer : Node → Option Node
  | .mk _ _ _ _ _ _ _ _ i _ _ _ _ => i

def Node.increment : Node → Option Node
  | .mk _ _ _ _ _ _ _ _ _ i _ _ _ => i

def Node.body : Node → List Node
  | .mk _ _ _ _ _ _ _ _ _ _ b _ _ => b

def Node.varRef : Node → Option Object
  | .mk _ _ _ _ _ _ _ _ _ _ _ v _ => v

def Node.value : Node → Int
  | .mk _ _ _ _ _ _ _ _ _ _ _ _ v => v

/-- Assignment `node.tp = t` (Go field mutation, functionally). -/
def Node.withTp (n : Node) (t : Option Ty) : Node :=
  match n with
  | .mk k l r _ tok c th e i inc b v val => .mk k l r t tok c th e i inc b v val

/-- Assignment `node.condition = c`. -/
def Node.withCondition (n : Node) (c : Option Node) : Node :=
  match n with
  | .mk k l r t tok _ th e i inc b v val => .mk k l r t tok c th e i inc b v val

/-- Assignment `node.thenBranch = th`. -/
def Node.withThenBranch (n : Node) (th : Option Node) : Node :=
  match n with
  | .mk k l r t tok c _ e i inc b v val => .mk k l r t tok c th e i inc b v val

/-- Assignment `node.elseBranch = e`. -/
def Node.withElseBranch (n : Node) (e : Option Node) : Node :=
  match n with
  | .mk k l r t tok c th _ i inc b v val => .mk k l r t tok c th e i inc b v val

/-- Assignment `node.initializer = i`. -/
def Node.withInitializer (n : Node) (i : Option Node) : Node :=
  match n with
  | .mk k l r t tok c th e _ inc b v val => .mk k l r t tok c th e i inc b v val

/-- Assignment `node.increment = inc`. -/
def Node.withIncrement (n : Node) (inc : Option Node) : Node :=
  match n with
  | .mk k l r t tok c th e i _ b v val => .mk k l r t tok c th e i inc b v val

/-- Assignment `node.body = b`. -/
def Node.withBody (n : Node) (b : List Node) : Node :=
  match n with
  | .mk k l r t tok c th e i inc _ v val => .mk k l r t tok c th e i inc b v val

/-- `NewNode(kind, token)` from parser.go. -/
def NewNode (kind : NodeKind) (token : Tok) : Node :=
  .mk kind none none none token none none none none none [] none 0

/-- `NewBinary(kind, lhs, rhs, token)` from parser.go. -/
def NewBinary (kind : NodeKind) (lhs rhs : Node) (token : Tok) : Node :=
  .mk kind (some lhs) (some rhs) none token none none none none none [] none 0

/-- `NewNumber(value, token)` from parser.go. -/
def NewNumber (value : Int) (token : Tok) : Node :=
  .mk .NodeNum none none none token none none none none none [] none value

/-- `NewUnary(kind, expr, token)` from parser.go. -/
def NewUnary (kind : NodeKind) (expr : Node) (token : Tok) : Node :=
  .mk kind (some expr) none none token none none none none none [] none 0

/-- `NewVar(variable, token)` from parser.go. -/
def NewVar (v : Object) (token : Tok) : Node :=
  .mk .NodeVar none none none token none none none none none [] (some v) 0

/-- Abnormal outcomes of the compiler: `exited msg` is a diagnostic plus
`os.Exit(1)`; `panicked` is a Go runtime panic (nil dereference);
`outOfFuel` is the fuel artefact of the embedding. -/
inductive CErr where
  | exited (msg : String)
  | panicked
  | outOfFuel
  deriving DecidableEq, Repr

/-! ### addtype (types.go lines 34–69) -/

mutual

/-- `addtype` from types.go: post-order type annotation.  A node whose `tp`
is already set is returned unchanged (Go returns early).  Otherwise the
children are annotated first, then the node's own type is filled from the
kind switch; `NodeDeref` of a non-pointer is a diagnostic plus exit. -/
def addtype : Nat → Node → Except CErr Node
  | 0, _ => .error .outOfFuel
  | fuel + 1, n =>
    match n.tp with
    | some _ => .ok n
    | none =>
      match n with
      | .mk k lhs rhs _ tok cond thenB elseB ini inc body v val => do
        let lhs ← addtypeO fuel lhs
        let rhs ← addtypeO fuel rhs
        let cond ← addtypeO fuel cond
        let thenB ← addtypeO fuel thenB
        let elseB ← addtypeO fuel elseB
        let ini ← addtypeO fuel ini
        let inc ← addtypeO fuel inc
        let body ← addtypeL fuel body
        let n' := Node.mk k lhs rhs none tok cond thenB elseB ini inc body v val
        match k with
        | .NodeAdd | .NodeSub | .NodeMul | .NodeDiv | .NodeNeg | .NodeAsg =>
          match lhs with
          | some l => .ok (n'.withTp l.tp)   -- node.tp = node.lhs.tp
          | none => .error .panicked        -- node.lhs is nil
        | .NodeEql | .NodeNeq | .NodeLss | .NodeLeq | .NodeNum =>
          .ok (n'.withTp (some .tpint))
        | .NodeVar =>
          match v with
          | some vo => .ok (n'.withTp (some vo.tp))
          | none => .error .panicked
        | .NodeAddr =>
          match lhs with
          | some l =>
            match l.tp with
            | some t => .ok (n'.withTp (some (ptrto t)))
            -- Go would build a PTR whose base is nil (unreachable from
            -- parsed ASTs: the operand of `&` is an expression, and every
            -- expression kind receives a type above)
            | none => .error .panicked
          | none => .error .panicked
        | .NodeDeref =>
          match lhs with
          | some l =>
            match l.tp with
            | some (.tpptr b) => .ok (n'.withTp (some b))
            | some .tpint => .error (.exited "invalid pointer dereference")
            | none => .error .panicked     -- node.lhs.tp.kind on nil tp
          | none => .error .panicked
        | _ => .ok n'                       -- statement kinds: no type

/-- `addtype(node)` where the argument may be Go-nil. -/
def addtypeO : Nat → Option Node → Except CErr (Option Node)
  | _, none => .ok none
  | 0, some _ => .error .outOfFuel
  | fuel + 1, some n => do
    let n' ← addtype fuel n
    .ok (some n')

/-- The `for n := node.body; n != nil; n = n.next` loop of `addtype`. -/
def addtypeL : Nat → List Node → Except CErr (List Node)
  | _, [] => .ok []
  | 0, _ :: _ => .error .outOfFuel
  | fuel + 1, n :: ns => do
    let n' ← addtype fuel n
    let ns' ← addtypeL fuel ns
    .ok (n' :: ns')

end

/-! ### Pointer-arithmetic node builders (parser.go lines 331–379) -/

/-- `NewAdd` from parser.go: the type-directed `+` rewrite.  Both operands
are annotated first; then num+num is a plain add, ptr+ptr is a diagnostic
plus exit (the source's message reads "invalid opreands"), num+ptr swaps
the operands, and the remaining ptr+num scales the integer by 8. -/
def NewAdd (fuel : Nat) (lhs rhs : Node) (token : Tok) : Except CErr Node := do
  let lhs ← addtype fuel lhs
  let rhs ← addtype fuel rhs
  match lhs.tp, rhs.tp with
  | some lt, some rt =>
    -- num + num
    if isint lt && isint rt then .ok (NewBinary .NodeAdd lhs rhs token)
    -- ptr + ptr
    else if lt.base.isSome && rt.base.isSome then .error (.exited "invalid opreands")
    else
      -- num + ptr -> ptr + num
      let (lhs, rhs) :=
        if lt.base = none && rt.base.isSome then (rhs, lhs) else (lhs, rhs)
      -- ptr + num
      let rhs := NewBinary .NodeMul rhs (NewNumber 8 token) token
      .ok (NewBinary .NodeAdd lhs rhs token)
  | _, _ => .error .panicked   -- isint(nil) / nil.base in Go

/-- `NewSub` from parser.go: the type-directed `-` rewrite.  num−num is a
plain sub; ptr−num scales the integer by 8 and types the node as the lhs
pointer type; num−ptr is a diagnostic plus exit; ptr−ptr becomes
`(lhs - rhs) / 8` with the inner sub typed int. -/
def NewSub (fuel : Nat) (lhs rhs : Node) (token : Tok) : Except CErr Node := do
  let lhs ← addtype fuel lhs
  let rhs ← addtype fuel rhs
  match lhs.tp, rhs.tp with
  | some lt, some rt =>
    -- num - num
    if isint lt && isint rt then .ok (NewBinary .NodeSub lhs rhs token)
    -- ptr - num
    else if lt.base.isSome && isint rt then do
      let rhs ← addtype fuel (NewBinary .NodeMul rhs (NewNumber 8 token) token)
      let node := NewBinary .NodeSub lhs rhs token
      .ok (node.withTp (some lt))          -- node.tp = lhs.tp
    -- num - ptr
    else if isint lt && rt.base.isSome then .error (.exited "invalid opreands")
    else
      -- ptr - ptr
      let node := (NewBinary .NodeSub lhs rhs token).withTp (some .tpint)
      .ok (NewBinary .NodeDiv node (NewNumber 8 token) token)
  | _, _ => .error .panicked

/-! ## Recursive-descent parsing (parser.go, declaration-aware version) -/

/-- `equal(token, lexeme)` from parser.go. -/
def equal (t : Tok) (lexeme : String) : Bool := t.lexeme = lexeme

/-- `skip(token, lexeme)` from parser.go: advance past an expected lexeme
or exit with a diagnostic.  The token list always ends with the EOF token,
so the nil case (`panicked`) is unreachable on tokenizer output. -/
def skip (toks : List Tok) (lexeme : String) : Except CErr (List Tok) :=
  match toks with
  | [] => .error .panicked
  | t :: rest =>
    if equal t lexeme then .ok rest
    else .error (.exited ("expected " ++ lexeme))

/-- `consume(rest, token, lexeme)` from parser.go. -/
def consume (toks : List Tok) (lexeme : String) : Except CErr (Bool × List Tok) :=
  match toks with
  | [] => .error .panicked
  | t :: rest => if equal t lexeme then .ok (true, rest) else .ok (false, t :: rest)

/-- `getIdent(token)` from parser.go. -/
def getIdent (t : Tok) : Except CErr String :=
  if t.kind = .IDENT then .ok t.lexeme
  else .error (.exited "expected an identifier")

/-- `NewLvar(name, tp)` from parser.go: creates an Object (offset zero) and
prepends it to the head of the `locals` linked list; returns the new
variable and the new list. -/
def NewLvar (name : String) (tp : Ty) (locals : List Object) :
    Object × List Object :=
  let v : Object := { name := name, tp := tp, offset := 0 }
  (v, v :: locals)

/-- `findVar(token)` from parser.go: first match while walking the `locals`
list from its head. -/
def findVar (t : Tok) : List Object → Option Object
  | [] => none
  | v :: vs => if v.name = t.lexeme then some v else findVar t vs

/-- `declspec` from parser.go: `declspec -> "int"`, producing `tpint`. -/
def declspec (toks : List Tok) : Except CErr (Ty × List Tok) := do
  let rest ← skip toks "int"
  .ok (.tpint, rest)

/-- `declarator` from parser.go: `"*"* ident`.  Go stores the identifier
token into `tp.name`; here it is returned as the second component. -/
def declarator : Nat → List Tok → Ty → Except CErr (Ty × Tok × List Tok)
  | 0, _, _ => .error .outOfFuel
  | fuel + 1, toks, tp => do
    let (star, toks) ← consume toks "*"
    if star then declarator fuel toks (ptrto tp)
    else
      match toks with
      | [] => .error .panicked
      | t :: rest =>
        if t.kind = .IDENT then .ok (tp, t, rest)
        else .error (.exited "expected a variable name")

/-- The head token of the list (Go reads fields of the current `token`
pointer; the list is never empty on tokenizer output, which always ends
with the EOF token). -/
def headTok (toks : List Tok) : Except CErr Tok :=
  match toks with
  | [] => .error .panicked
  | t :: _ => .ok t

mutual

/-- `stmt` from parser.go (lines 435–485). -/
def stmt : Nat → List Tok → List Object → Except CErr (Node × List Tok × List Object)
  | 0, _, _ => .error .outOfFuel
  | fuel + 1, toks, locals =>
    match toks with
    | [] => .error .panicked
    | t :: rest =>
      if equal t "return" then do
        let (e, toks) ← expr fuel rest locals
        let node := NewUnary .NodeReturn e t
        let toks ← skip toks ";"
        .ok (node, toks, locals)
      else if equal t "\x7b" then block fuel rest locals
      else if equal t "if" then do
        let node := NewNode .NodeIf t
        let toks ← skip rest "("
        let (cond, toks) ← expr fuel toks locals
        let toks ← skip toks ")"
        let (thenB, toks, locals) ← stmt fuel toks locals
        let node := (node.withCondition (some cond)).withThenBranch (some thenB)
        match toks with
        | [] => .error .panicked
        | t2 :: rest2 =>
          if equal t2 "else" then do
            let (elseB, toks, locals) ← stmt fuel rest2 locals
            .ok (node.withElseBranch (some elseB), toks, locals)
          else .ok (node, t2 :: rest2, locals)
      else if equal t "for" then do
        let node := NewNode .NodeFor t
        let toks ← skip rest "("
        let (ini, toks) ← exprStmt fuel toks locals
        let node := node.withInitializer (some ini)
        let t2 ← headTok toks
        let (node, toks) ←
          if !equal t2 ";" then do
            let (cond, toks) ← expr fuel toks locals
            pure (node.withCondition (some cond), toks)
          else pure (node, toks)
        let toks ← skip toks ";"
        let t3 ← headTok toks
        let (node, toks) ←
          if !equal t3 ")" then do
            let (inc, toks) ← expr fuel toks locals
            pure (node.withIncrement (some inc), toks)
          else pure (node, toks)
        let toks ← skip toks ")"
        let (body, toks, locals) ← stmt fuel toks locals
        .ok (node.withThenBranch (some body), toks, locals)
      else if equal t "while" then do
        let node := NewNode .NodeFor t
        let toks ← skip rest "("
        let (cond, toks) ← expr fuel toks locals
        let toks ← skip toks ")"
        let (body, toks, locals) ← stmt fuel toks locals
        .ok ((node.withCondition (some cond)).withThenBranch (some body), toks, locals)
      else if equal t "int" then declaration fuel (t :: rest) locals
      else do
        let (node, toks) ← exprStmt fuel (t :: rest) locals
        .ok (node, toks, locals)

/-- `declaration` from parser.go (lines 527–569): `declspec` then one
mandatory declarator group, then `( "," declarator ( "=" expr )? )*` up to
the semicolon; each declarator becomes an expression statement in the body
of a BLOCK node. -/
def declaration : Nat → List Tok → List Object →
    Except CErr (Node × List Tok × List Object)
  | 0, _, _ => .error .outOfFuel
  | fuel + 1, toks, locals => do
    let (baseType, toks) ← declspec toks
    let (tp, nameTok, toks) ← declarator fuel toks baseType
    let name ← getIdent nameTok
    let (vr, locals) := NewLvar name tp locals
    let t2 ← headTok toks
    let (ini, toks) ←
      if equal t2 "=" then do
        let toks ← skip toks "="
        let (e, toks) ← expr fuel toks locals
        pure (some e, toks)
      else pure (none, toks)
    let t3 ← headTok toks
    let first :=
      match ini with
      | none => NewUnary .NodeExprStmt (NewVar vr nameTok) t3
      | some e => NewUnary .NodeExprStmt (NewBinary .NodeAsg (NewVar vr nameTok) e t3) t3
    let (stmts, toks, locals) ← declLoop fuel toks locals baseType [first]
    let t4 ← headTok toks
    let node := (NewNode .NodeBlock t4).withBody stmts
    let toks ← skip toks ";"
    .ok (node, toks, locals)

/-- The `for token.kind != EOF && !equal(token, ";")` loop of
`declaration`. -/
def declLoop : Nat → List Tok → List Object → Ty → List Node →
    Except CErr (List Node × List Tok × List Object)
  | 0, _, _, _, _ => .error .outOfFuel
  | fuel + 1, toks, locals, baseType, acc =>
    match toks with
    | [] => .error .panicked
    | t :: _ =>
      if t.kind ≠ .EOF && !equal t ";" then do
        let toks ← skip toks ","
        let (tp, nameTok, toks) ← declarator fuel toks baseType
        let name ← getIdent nameTok
        let (vr, locals) := NewLvar name tp locals
        let t2 ← headTok toks
        let (ini, toks) ←
          if !equal t2 "=" then pure ((none : Option Node), toks)
          else do
            let toks ← skip toks "="
            let (e, toks) ← expr fuel toks locals
            pure (some e, toks)
        let t3 ← headTok toks
        let next :=
          match ini with
          | none => NewUnary .NodeExprStmt (NewVar vr nameTok) t3
          | some e => NewUnary .NodeExprStmt (NewBinary .NodeAsg (NewVar vr nameTok) e t3) t3
        declLoop fuel toks locals baseType (acc ++ [next])
      else .ok (acc, toks, locals)

/-- `block` from parser.go (lines 572–584): `stmt* "}"`. -/
def block : Nat → List Tok → List Object →
    Except CErr (Node × List Tok × List Object)
  | 0, _, _ => .error .outOfFuel
  | fuel + 1, toks, locals => do
    let t ← headTok toks
    let (stmts, toks, locals) ← blockLoop fuel toks locals []
    let node := (NewNode .NodeBlock t).withBody stmts
    let toks ← skip toks "\x7d"
    .ok (node, toks, locals)

/-- The `for token.kind != EOF && !equal(token, "}")` loop of `block`. -/
def blockLoop : Nat → List Tok → List Object → List Node →
    Except CErr (List Node × List Tok × List Object)
  | 0, _, _, _ => .error .outOfFuel
  | fuel + 1, toks, locals, acc =>
    match toks with
    | [] => .error .panicked
    | t :: _ =>
      if t.kind ≠ .EOF && !equal t "\x7d" then do
        let (node, toks, locals) ← stmt fuel toks locals
        blockLoop fuel toks locals (acc ++ [node])
      else .ok (acc, toks, locals)

/-- `exprStmt` from parser.go (lines 587–595): `expr? ";"`; a lone `;` is
an empty BLOCK node. -/
def exprStmt : Nat → List Tok → List Object → Except CErr (Node × List Tok)
  | 0, _, _ => .error .outOfFuel
  | fuel + 1, toks, locals =>
    match toks with
    | [] => .error .panicked
    | t :: rest =>
      if equal t ";" then .ok (NewNode .NodeBlock t, rest)
      else do
        let (e, toks) ← expr fuel (t :: rest) locals
        let node := NewUnary .NodeExprStmt e t
        let toks ← skip toks ";"
        .ok (node, toks)

/-- `expr -> assign` from parser.go. -/
def expr : Nat → List Tok → List Object → Except CErr (Node × List Tok)
  | 0, _, _ => .error .outOfFuel
  | fuel + 1, toks, locals => assign fuel toks locals

/-- `assign -> equality ( "=" assign )?` from parser.go. -/
def assign : Nat → List Tok → List Object → Except CErr (Node × List Tok)
  | 0, _, _ => .error .outOfFuel
  | fuel + 1, toks, locals => do
    let (node, toks) ← equality fuel toks locals
    match toks with
    | [] => .error .panicked
    | t :: rest =>
      if equal t "=" then do
        let (rhs, toks) ← assign fuel rest locals
        .ok (NewBinary .NodeAsg node rhs t, toks)
      else .ok (node, t :: rest)

/-- `equality -> relational ( "==" relational | "!=" relational )*`. -/
def equality : Nat → List Tok → List Object → Except CErr (Node × List Tok)
  | 0, _, _ => .error .outOfFuel
  | fuel + 1, toks, locals => do
    let (node, toks) ← relational fuel toks locals
    equalityLoop fuel node toks locals

def equalityLoop : Nat → Node → List Tok → List Object →
    Except CErr (Node × List Tok)
  | 0, _, _, _ => .error .outOfFuel
  | fuel + 1, node, toks, locals =>
    match toks with
    | [] => .error .panicked
    | t :: rest =>
      if equal t "==" then do
        let (r, toks) ← relational fuel rest locals
        equalityLoop fuel (NewBinary .NodeEql node r t) toks locals
      else if equal t "!=" then do
        let (r, toks) ← relational fuel rest locals
        equalityLoop fuel (NewBinary .NodeNeq node r t) toks locals
      else .ok (node, t :: rest)

/-- `relational -> addsub ( "<" | "<=" | ">" | ">=" addsub )*`; `>` and
`>=` are desugared by swapping the operands of LSS/LEQ. -/
def relational : Nat → List Tok → List Object → Except CErr (Node × List Tok)
  | 0, _, _ => .error .outOfFuel
  | fuel + 1, toks, locals => do
    let (node, toks) ← addsub fuel toks locals
    relationalLoop fuel node toks locals

def relationalLoop : Nat → Node → List Tok → List Object →
    Except CErr (Node × List Tok)
  | 0, _, _, _ => .error .outOfFuel
  | fuel + 1, node, toks, locals =>
    match toks with
    | [] => .error .panicked
    | t :: rest =>
      if equal t "<" then do
        let (r, toks) ← addsub fuel rest locals
        relationalLoop fuel (NewBinary .NodeLss node r t) toks locals
      else if equal t "<=" then do
        let (r, toks) ← addsub fuel rest locals
        relationalLoop fuel (NewBinary .NodeLeq node r t) toks locals
      else if equal t ">" then do
        let (r, toks) ← addsub fuel rest locals
        relationalLoop fuel (NewBinary .NodeLss r node t) toks locals
      else if equal t ">=" then do
        let (r, toks) ← addsub fuel rest locals
        relationalLoop fuel (NewBinary .NodeLeq r node t) toks locals
      else .ok (node, t :: rest)

/-- `addsub -> muldiv ( "+" muldiv | "-" muldiv )*`, building nodes through
the pointer-arithmetic rewrites `NewAdd` / `NewSub`. -/
def addsub : Nat → List Tok → List Object → Except CErr (Node × List Tok)
  | 0, _, _ => .error .outOfFuel
  | fuel + 1, toks, locals => do
    let (node, toks) ← muldiv fuel toks locals
    addsubLoop fuel node toks locals

def addsubLoop : Nat → Node → List Tok → List Object →
    Except CErr (Node × List Tok)
  | 0, _, _, _ => .error .outOfFuel
  | fuel + 1, node, toks, locals =>
    match toks with
    | [] => .error .panicked
    | t :: rest =>
      if equal t "+" then do
        let (r, toks) ← muldiv fuel rest locals
        let node ← NewAdd fuel node r t
        addsubLoop fuel node toks locals
      else if equal t "-" then do
        let (r, toks) ← muldiv fuel rest locals
        let node ← NewSub fuel node r t
        addsubLoop fuel node toks locals
      else .ok (node, t :: rest)

/-- `muldiv -> unary ( "*" unary | "/" unary )*`. -/
def muldiv : Nat → List Tok → List Object → Except CErr (Node × List Tok)
  | 0, _, _ => .error .outOfFuel
  | fuel + 1, toks, locals => do
    let (node, toks) ← unary fuel toks locals
    muldivLoop fuel node toks locals

def muldivLoop : Nat → Node → List Tok → List Object →
    Except CErr (Node × List Tok)
  | 0, _, _, _ => .error .outOfFuel
  | fuel + 1, node, toks, locals =>
    match toks with
    | [] => .error .panicked
    | t :: rest =>
      if equal t "*" then do
        let (r, toks) ← unary fuel rest locals
        muldivLoop fuel (NewBinary .NodeMul node r t) toks locals
      else if equal t "/" then do
        let (r, toks) ← unary fuel rest locals
        muldivLoop fuel (NewBinary .NodeDiv node r t) toks locals
      else .ok (node, t :: rest)

/-- `unary -> ( "+" | "-" | "*" | "&" ) unary | primary`. -/
def unary : Nat → List Tok → List Object → Except CErr (Node × List Tok)
  | 0, _, _ => .error .outOfFuel
  | fuel + 1, toks, locals =>
    match toks with
    | [] => .error .panicked
    | t :: rest =>
      if equal t "+" then unary fuel rest locals
      else if equal t "-" then do
        let (e, toks) ← unary fuel rest locals
        .ok (NewUnary .NodeNeg e t, toks)
      else if equal t "*" then do
        let (e, toks) ← unary fuel rest locals
        .ok (NewUnary .NodeDeref e t, toks)
      else if equal t "&" then do
        let (e, toks) ← unary fuel rest locals
        .ok (NewUnary .NodeAddr e t, toks)
      else primary fuel (t :: rest) locals

/-- `primary -> "(" expr ")" | number | ident` from parser.go; an
identifier that is not in the locals list is an error. -/
def primary : Nat → List Tok → List Object → Except CErr (Node × List Tok)
  | 0, _, _ => .error .outOfFuel
  | fuel + 1, toks, locals =>
    match toks with
    | [] => .error .panicked
    | t :: rest =>
      if equal t "(" then do
        let (node, toks) ← expr fuel rest locals
        let toks ← skip toks ")"
        .ok (node, toks)
      else if t.kind = .NUM then .ok (NewNumber t.value t, rest)
      else if t.kind = .IDENT then
        match findVar t locals with
        | none => .error (.exited "undefined variable")
        | some v => .ok (NewVar v t, rest)
      else .error (.exited "expected an expression")

end

/-- The root of compilation (`Function` from parser.go).  `stackSize` is a
nonnegative byte count, so Go's `int` arithmetic on it agrees with `Nat`. -/
structure Function where
  body : List Node
  locals : List Object
  stackSize : Nat

/-- The `for token.kind != EOF` loop of `parse`, which also runs `addtype`
on each parsed top-level statement. -/
def parseLoop : Nat → List Tok → List Object → List Node →
    Except CErr (List Node × List Object)
  | 0, _, _, _ => .error .outOfFuel
  | fuel + 1, toks, locals, acc =>
    match toks with
    | [] => .error .panicked
    | t :: _ =>
      if t.kind = .EOF then .ok (acc, locals)
      else do
        let (node, toks, locals) ← stmt fuel toks locals
        let node ← addtype fuel node
        parseLoop fuel toks locals (acc ++ [node])

/-- `parse(token)` from parser.go (lines 400–413): the global `locals`
list starts empty. -/
def parse (fuel : Nat) (toks : List Tok) : Except CErr Function := do
  let (body, locals) ← parseLoop fuel toks [] []
  .ok { body := body, locals := locals, stackSize := 0 }

/-- Tokenize a source string, then parse the token list (the pipeline of
`main.go` up to code generation). -/
def lexThenParse (fuel : Nat) (s : String) : Except CErr Function :=
  match tokenize s with
  | .ok toks => parse fuel toks
  | .panicked => .error .panicked
  | .exited => .error (.exited "lexical error")
  | .outOfFuel => .error .outOfFuel

end Gocc

namespace Gocc

/-! ### Helper lemmas about addtype on already-typed operands -/

@[simp] theorem ok_bind {ε α β : Type} (a : α) (f : α → Except ε β) :
    (Except.ok a : Except ε α) >>= f = f a := rfl

@[simp] theorem error_bind {ε α β : Type} (e : ε) (f : α → Except ε β) :
    (Except.error e : Except ε α) >>= f = .error e := rfl

/-- A node that already carries a type is returned unchanged (the early
return of `addtype`). -/
theorem addtype_typed {n : Node} {t : Ty} (h : n.tp = some t) :
    ∀ fuel, 1 ≤ fuel → addtype fuel n = .ok n := by
  intro fuel hf
  obtain ⟨g, rfl⟩ : ∃ g, fuel = g + 1 := ⟨fuel - 1, by omega⟩
  simp [addtype, h]

theorem addtypeO_none (fuel : Nat) : addtypeO fuel none = .ok none := by
  cases fuel <;> rfl

theorem addtypeL_nil (fuel : Nat) : addtypeL fuel [] = .ok [] := by
  cases fuel <;> rfl

theorem addtypeO_typed {n : Node} {t : Ty} (h : n.tp = some t) :
    ∀ fuel, 2 ≤ fuel → addtypeO fuel (some n) = .ok (some n) := by
  intro fuel hf
  obtain ⟨g, rfl⟩ : ∃ g, fuel = g + 2 := ⟨fuel - 2, by omega⟩
  rw [addtypeO]
  rw [addtype_typed h (g + 1) (by omega)]
  rfl

theorem Node.tp_withTp (n : Node) (t : Option Ty) : (n.withTp t).tp = t := by
  cases n
  rfl

/-- `addtype` on a fresh numeric literal annotates it with int. -/
theorem addtype_NewNumber (v : Int) (tok : Tok) :
    ∀ fuel, 1 ≤ fuel →
      addtype fuel (NewNumber v tok) = .ok ((NewNumber v tok).withTp (some .tpint)) := by
  intro fuel hf
  obtain ⟨g, rfl⟩ : ∃ g, fuel = g + 1 := ⟨fuel - 1, by omega⟩
  simp only [NewNumber]
  rw [addtype]
  simp [Node.tp, addtypeO_none, addtypeL_nil, Node.withTp]

theorem addtypeO_NewNumber (v : Int) (tok : Tok) :
    ∀ fuel, 2 ≤ fuel →
      addtypeO fuel (some (NewNumber v tok)) =
        .ok (some ((NewNumber v tok).withTp (some .tpint))) := by
  intro fuel hf
  obtain ⟨g, rfl⟩ : ∃ g, fuel = g + 2 := ⟨fuel - 2, by omega⟩
  rw [addtypeO]
  rw [addtype_NewNumber v tok (g + 1) (by omega)]
  rfl

/-- Evaluation of `addtype` on a binary node whose kind takes its type from
the (already typed) left operand, given the evaluation of `addtype` on the
right operand. -/
theorem addtype_binary_arm {k : NodeKind}
    (hk : k = .NodeAdd ∨ k = .NodeSub ∨ k = .NodeMul ∨ k = .NodeDiv ∨ k = .NodeAsg)
    {l r r' : Node} {t1 : Ty} (hl : l.tp = some t1) (tok : Tok)
    (hr : ∀ fuel, 2 ≤ fuel → addtypeO fuel (some r) = .ok (some r')) :
    ∀ fuel, 3 ≤ fuel →
      addtype fuel (NewBinary k l r tok) =
        .ok ((NewBinary k l r' tok).withTp (some t1)) := by
  intro fuel hf
  obtain ⟨g, rfl⟩ : ∃ g, fuel = g + 1 := ⟨fuel - 1, by omega⟩
  simp only [NewBinary]
  rw [addtype]
  rw [addtypeO_typed hl g (by omega), hr g (by omega)]
  rcases hk with rfl | rfl | rfl | rfl | rfl <;>
    simp [addtypeO_none, addtypeL_nil, hl, Node.withTp]
  all_goals rfl

/-! ### Claim theorems: pointer arithmetic (C1) -/

/-- C1: the type-directed rewrites of `NewAdd` and `NewSub`.  With both
operands already typed: int+int / int−int give plain add/sub nodes;
ptr+int gives `lhs + (rhs * 8)` and int+ptr swaps the operands first;
ptr−int gives `lhs - (rhs * 8)` with the node typed ptr(T); ptr+ptr and
int−ptr exit with the "invalid opreands" diagnostic; ptr−ptr gives
`(lhs - rhs) / 8` whose inner sub is typed int and whose own type after
annotation is int. -/
theorem c1_pointer_arithmetic_rewrites :
    ∀ (f : Nat) (lhs rhs : Node) (tok : Tok) (b b' : Ty), 3 ≤ f →
      (lhs.tp = some .tpint → rhs.tp = some .tpint →
        NewAdd f lhs rhs tok = .ok (NewBinary .NodeAdd lhs rhs tok) ∧
        NewSub f lhs rhs tok = .ok (NewBinary .NodeSub lhs rhs tok)) ∧
      (lhs.tp = some (.tpptr b) → rhs.tp = some .tpint →
        NewAdd f lhs rhs tok =
          .ok (NewBinary .NodeAdd lhs (NewBinary .NodeMul rhs (NewNumber 8 tok) tok) tok) ∧
        NewSub f lhs rhs tok =
          .ok ((NewBinary .NodeSub lhs
              ((NewBinary .NodeMul rhs ((NewNumber 8 tok).withTp (some .tpint)) tok).withTp
                (some .tpint)) tok).withTp (some (.tpptr b)))) ∧
      (lhs.tp = some .tpint → rhs.tp = some (.tpptr b) →
        NewAdd f lhs rhs tok =
          .ok (NewBinary .NodeAdd rhs (NewBinary .NodeMul lhs (NewNumber 8 tok) tok) tok) ∧
        NewSub f lhs rhs tok = .error (.exited "invalid opreands")) ∧
      (lhs.tp = some (.tpptr b) → rhs.tp = some (.tpptr b') →
        NewAdd f lhs rhs tok = .error (.exited "invalid opreands") ∧
        NewSub f lhs rhs tok =
          .ok (NewBinary .NodeDiv ((NewBinary .NodeSub lhs rhs tok).withTp (some .tpint))
            (NewNumber 8 tok) tok) ∧
        addtype f (NewBinary .NodeDiv ((NewBinary .NodeSub lhs rhs tok).withTp (some .tpint))
            (NewNumber 8 tok) tok) =
          .ok ((NewBinary .NodeDiv ((NewBinary .NodeSub lhs rhs tok).withTp (some .tpint))
              ((NewNumber 8 tok).withTp (some .tpint)) tok).withTp (some .tpint))) := by
  intro f lhs rhs tok b b' hf
  refine ⟨fun hl hr => ⟨?_, ?_⟩, fun hl hr => ⟨?_, ?_⟩,
          fun hl hr => ⟨?_, ?_⟩, fun hl hr => ⟨?_, ?_, ?_⟩⟩
  · simp [NewAdd, addtype_typed hl f (by omega), addtype_typed hr f (by omega),
      hl, hr, isint]
  · simp [NewSub, addtype_typed hl f (by omega), addtype_typed hr f (by omega),
      hl, hr, isint]
  · simp [NewAdd, addtype_typed hl f (by omega), addtype_typed hr f (by omega),
      hl, hr, isint, Ty.base]
  · have hscale := addtype_binary_arm (Or.inr (Or.inr (Or.inl rfl))) hr tok
      (addtypeO_NewNumber 8 tok) f hf
    simp [NewSub, addtype_typed hl f (by omega), addtype_typed hr f (by omega),
      hl, hr, isint, Ty.base, hscale]
  · simp [NewAdd, addtype_typed hl f (by omega), addtype_typed hr f (by omega),
      hl, hr, isint, Ty.base]
  · simp [NewSub, addtype_typed hl f (by omega), addtype_typed hr f (by omega),
      hl, hr, isint, Ty.base]
  · simp [NewAdd, addtype_typed hl f (by omega), addtype_typed hr f (by omega),
      hl, hr, isint, Ty.base]
  · simp [NewSub, addtype_typed hl f (by omega), addtype_typed hr f (by omega),
      hl, hr, isint, Ty.base]
  · exact addtype_binary_arm (Or.inr (Or.inr (Or.inr (Or.inl rfl))))
      (Node.tp_withTp _ _) tok (addtypeO_NewNumber 8 tok) f hf

/-- Witness for C1 on concrete typed operands: a ptr(int) variable plus the
literal 1 is rewritten to `p + (1 * 8)`, and int − ptr exits with the
"invalid opreands" diagnostic. -/
theorem c1_pointer_arithmetic_rewrites_witness :
    NewAdd 3 ((NewVar ⟨"p", .tpptr .tpint, 0⟩ ⟨.IDENT, 0, 0, 1, "p"⟩).withTp
        (some (.tpptr .tpint)))
      ((NewNumber 1 ⟨.NUM, 1, 0, 1, "1"⟩).withTp (some .tpint)) ⟨.ADD, 0, 0, 1, "+"⟩ =
      .ok (NewBinary .NodeAdd
        ((NewVar ⟨"p", .tpptr .tpint, 0⟩ ⟨.IDENT, 0, 0, 1, "p"⟩).withTp
          (some (.tpptr .tpint)))
        (NewBinary .NodeMul ((NewNumber 1 ⟨.NUM, 1, 0, 1, "1"⟩).withTp (some .tpint))
          (NewNumber 8 ⟨.ADD, 0, 0, 1, "+"⟩) ⟨.ADD, 0, 0, 1, "+"⟩) ⟨.ADD, 0, 0, 1, "+"⟩) ∧
    NewSub 3 ((NewNumber 1 ⟨.NUM, 1, 0, 1, "1"⟩).withTp (some .tpint))
      ((NewVar ⟨"p", .tpptr .tpint, 0⟩ ⟨.IDENT, 0, 0, 1, "p"⟩).withTp
        (some (.tpptr .tpint))) ⟨.SUB, 0, 0, 1, "-"⟩ =
      .error (.exited "invalid opreands") :=
  ⟨((c1_pointer_arithmetic_rewrites 3
      ((NewVar ⟨"p", .tpptr .tpint, 0⟩ ⟨.IDENT, 0, 0, 1, "p"⟩).withTp
        (some (.tpptr .tpint)))
      ((NewNumber 1 ⟨.NUM, 1, 0, 1, "1"⟩).withTp (some .tpint))
      ⟨.ADD, 0, 0, 1, "+"⟩ .tpint .tpint (by omega)).2.1 rfl rfl).1,
   ((c1_pointer_arithmetic_rewrites 3
      ((NewNumber 1 ⟨.NUM, 1, 0, 1, "1"⟩).withTp (some .tpint))
      ((NewVar ⟨"p", .tpptr .tpint, 0⟩ ⟨.IDENT, 0, 0, 1, "p"⟩).withTp
        (some (.tpptr .tpint)))
      ⟨.SUB, 0, 0, 1, "-"⟩ .tpint .tpint (by omega)).2.2.1 rfl rfl).2⟩

/-! ### Claim theorems: locals list and declarations (C5, C9, C10) -/

/-- C5 counterexample: parsing `int x;int x;` leaves the locals list with
two distinct entries both named `x` — local variable names are not unique
within the function. -/
theorem c5_counterexample_duplicate_locals :
    (lexThenParse 100 "int x;int x;").map (fun fn => fn.locals) =
      .ok [⟨"x", .tpint, 0⟩, ⟨"x", .tpint, 0⟩] := by
  rfl

/-- C5 amended: every declaration unconditionally prepends a fresh Object
to the locals list (duplicates included), and `findVar` returns the first
match walking from the head, i.e. the most recently created Object with
that name — so a later occurrence of the name resolves to the latest
declaration (last-seen wins), not to the Object created first. -/
theorem c5_amended_last_seen_wins :
    ∀ (locals : List Object) (name : String) (tp : Ty) (t : Tok),
      t.lexeme = name →
      (NewLvar name tp locals).2 = (NewLvar name tp locals).1 :: locals ∧
      findVar t (NewLvar name tp locals).2 = some (NewLvar name tp locals).1 := by
  intro locals name tp t h
  exact ⟨rfl, by simp [NewLvar, findVar, h]⟩

/-- Witness for the amended C5: redeclaring `x` (now with type ptr(int))
on top of an int `x` prepends a new Object, and `findVar` resolves `x` to
the new Object, not the older one. -/
theorem c5_amended_last_seen_wins_witness :
    (NewLvar "x" (.tpptr .tpint) [⟨"x", .tpint, 0⟩]).2 =
      (NewLvar "x" (.tpptr .tpint) [⟨"x", .tpint, 0⟩]).1 :: [⟨"x", .tpint, 0⟩] ∧
    findVar ⟨.IDENT, 0, 0, 1, "x"⟩ (NewLvar "x" (.tpptr .tpint) [⟨"x", .tpint, 0⟩]).2 =
      some (NewLvar "x" (.tpptr .tpint) [⟨"x", .tpint, 0⟩]).1 :=
  c5_amended_last_seen_wins [⟨"x", .tpint, 0⟩] "x" (.tpptr .tpint)
    ⟨.IDENT, 0, 0, 1, "x"⟩ rfl

/-- C9 counterexample: the claim says the declarator group is optional and
`int;` is accepted; the code's `declaration` unconditionally calls
`declarator`, which rejects `;` with "expected a variable name" and exit
code 1. -/
theorem c9_counterexample_int_semi_rejected :
    lexThenParse 100 "int;" = .error (.exited "expected a variable name") := by
  rfl

/-- C9 amended: the declarator group of a declaration is mandatory: after
the `int` specifier, any token that is not `*` or an identifier — in
particular an immediate `;` — makes the parser exit with "expected a
variable name". -/
theorem c9_amended_declarator_mandatory :
    ∀ (f : Nat) (t1 t2 : Tok) (rest : List Tok) (locals : List Object),
      2 ≤ f → t1.lexeme = "int" → t2.lexeme = ";" → t2.kind ≠ .IDENT →
      declaration f (t1 :: t2 :: rest) locals =
        .error (.exited "expected a variable name") := by
  intro f t1 t2 rest locals hf h1 h2 h3
  obtain ⟨g, rfl⟩ : ∃ g, f = g + 2 := ⟨f - 2, by omega⟩
  rw [declaration]
  simp [declspec, skip, equal, h1, declarator, consume, h2, h3]

/-- Witness for the amended C9 on the token list of `int;`. -/
theorem c9_amended_declarator_mandatory_witness :
    declaration 2 [⟨.INT, 0, 0, 3, "int"⟩, ⟨.SEMI, 0, 3, 1, ";"⟩,
        ⟨.EOF, 0, 4, 0, ""⟩] [] =
      .error (.exited "expected a variable name") :=
  c9_amended_declarator_mandatory 2 ⟨.INT, 0, 0, 3, "int"⟩ ⟨.SEMI, 0, 3, 1, ";"⟩
    [⟨.EOF, 0, 4, 0, ""⟩] [] (by omega) rfl rfl (by decide)

/-- C10: assignment is never checked for type compatibility.  Generally,
`addtype` on an ASSIGN node with operands of any two (possibly different)
types succeeds with no diagnostic and annotates the node with the type of
the left-hand side; concretely, `int x;int *y;x=y;` parses and annotates
the `x=y` node with type int while its right-hand side has type ptr(int). -/
theorem c10_assignment_not_type_checked :
    (∀ (f : Nat) (lhs rhs : Node) (tok : Tok) (t1 t2 : Ty), 3 ≤ f →
      lhs.tp = some t1 → rhs.tp = some t2 →
      addtype f (NewBinary .NodeAsg lhs rhs tok) =
        .ok ((NewBinary .NodeAsg lhs rhs tok).withTp (some t1))) ∧
    (lexThenParse 100 "int x;int *y;x=y;").map (fun fn =>
        fn.body.map (fun (n : Node) =>
          (n.kind, n.lhs.map (fun (a : Node) => (a.kind, a.tp, a.rhs.map Node.tp))))) =
      .ok [(.NodeBlock, none), (.NodeBlock, none),
           (.NodeExprStmt, some (.NodeAsg, some .tpint, some (some (.tpptr .tpint))))] := by
  constructor
  · intro f lhs rhs tok t1 t2 hf hl hr
    exact addtype_binary_arm (Or.inr (Or.inr (Or.inr (Or.inr rfl)))) hl tok
      (fun fuel h => addtypeO_typed hr fuel h) f hf
  · rfl

/-- Witness for C10: storing a ptr(int) variable into an int variable is
annotated with the left-hand side's type int, with no diagnostic. -/
theorem c10_assignment_not_type_checked_witness :
    addtype 3 (NewBinary .NodeAsg
        ((NewVar ⟨"x", .tpint, 0⟩ ⟨.IDENT, 0, 0, 1, "x"⟩).withTp (some .tpint))
        ((NewVar ⟨"y", .tpptr .tpint, 0⟩ ⟨.IDENT, 0, 2, 1, "y"⟩).withTp
          (some (.tpptr .tpint))) ⟨.ASG, 0, 1, 1, "="⟩) =
      .ok ((NewBinary .NodeAsg
        ((NewVar ⟨"x", .tpint, 0⟩ ⟨.IDENT, 0, 0, 1, "x"⟩).withTp (some .tpint))
        ((NewVar ⟨"y", .tpptr .tpint, 0⟩ ⟨.IDENT, 0, 2, 1, "y"⟩).withTp
          (some (.tpptr .tpint))) ⟨.ASG, 0, 1, 1, "="⟩).withTp (some .tpint)) :=
  c10_assignment_not_type_checked.1 3
    ((NewVar ⟨"x", .tpint, 0⟩ ⟨.IDENT, 0, 0, 1, "x"⟩).withTp (some .tpint))
    ((NewVar ⟨"y", .tpptr .tpint, 0⟩ ⟨.IDENT, 0, 2, 1, "y"⟩).withTp
      (some (.tpptr .tpint))) ⟨.ASG, 0, 1, 1, "="⟩ .tpint (.tpptr .tpint)
    (by omega) rfl rfl

/-! ## Code generator (second version of the codegen file) -/

/-- `alignTo(n, align)`: round `n` up to the nearest multiple of `align`.
Both Go `int` operands are nonnegative here, so Go's truncated division
agrees with `Nat` division. -/
def alignTo (n align : Nat) : Nat := (n + align - 1) / align * align

/-- The `for v := program.locals; v != nil; v = v.next` loop of
`assignLvarOffsets`: walking the list in order, `offset += 8` and
`v.offset = -offset`; returns the rewritten list and the final offset. -/
def assignLvarOffsetsLoop (offset : Nat) : List Object → List Object × Nat
  | [] => ([], offset)
  | v :: vs =>
    let offset' := offset + 8
    let (vs', final) := assignLvarOffsetsLoop offset' vs
    ({ v with offset := -(offset' : Int) } :: vs', final)

/-- `assignLvarOffsets(program)`: assign stack offsets to all locals and
store the 16-byte-aligned frame size on the Function. -/
def assignLvarOffsets (program : Function) : Function :=
  let (locals', offset) := assignLvarOffsetsLoop 0 program.locals
  { program with locals := locals', stackSize := alignTo offset 16 }

/-- The operator tail of `genExpr`'s second switch (the instructions
emitted after `pop %rdi`); kinds without a case emit nothing more. -/
def binOpInstrs : NodeKind → List String
  | .NodeAdd => ["  add %rdi, %rax"]
  | .NodeSub => ["  sub %rdi, %rax"]
  | .NodeMul => ["  imul %rdi, %rax"]
  | .NodeDiv => ["  cqo", "  idiv %rdi"]
  | .NodeEql => ["  cmp %rdi, %rax", "  sete %al", "  movzb %al, %rax"]
  | .NodeNeq => ["  cmp %rdi, %rax", "  setne %al", "  movzb %al, %rax"]
  | .NodeLss => ["  cmp %rdi, %rax", "  setl %al", "  movzb %al, %rax"]
  | .NodeLeq => ["  cmp %rdi, %rax", "  setle %al", "  movzb %al, %rax"]
  | _ => []

mutual

/-- `genAddr(node)`: address of an lvalue into RAX; VAR uses the assigned
RBP offset, DEREF evaluates its operand, anything else is "not
addressable" plus exit. -/
def genAddr : Nat → Node → Except CErr (List String)
  | 0, _ => .error .outOfFuel
  | fuel + 1, node =>
    match node.kind with
    | .NodeVar =>
      match node.varRef with
      | some v => .ok ["  lea " ++ toString v.offset ++ "(%rbp), %rax"]
      | none => .error .panicked
    | .NodeDeref =>
      match node.lhs with
      | some l => genExpr fuel l
      | none => .error .panicked
    | _ => .error (.exited "not addressable")

/-- `genExpr(node)`: emit code leaving the node's value in RAX.  Kinds not
handled by the first switch fall through to the binary scheme: right
operand, `push %rax`, left operand, `pop %rdi`, operator tail. -/
def genExpr : Nat → Node → Except CErr (List String)
  | 0, _ => .error .outOfFuel
  | fuel + 1, node =>
    match node.kind with
    | .NodeNum => .ok ["  mov $" ++ toString node.value ++ ", %rax"]
    | .NodeNeg =>
      match node.lhs with
      | some l => do
        let out ← genExpr fuel l
        .ok (out ++ ["  neg %rax"])
      | none => .error .panicked
    | .NodeDeref =>
      match node.lhs with
      | some l => do
        let out ← genExpr fuel l
        .ok (out ++ ["  mov (%rax), %rax"])
      | none => .error .panicked
    | .NodeAddr =>
      match node.lhs with
      | some l => genAddr fuel l
      | none => .error .panicked
    | .NodeVar => do
      let a ← genAddr fuel node
      .ok (a ++ ["  mov (%rax), %rax"])
    | .NodeAsg =>
      match node.lhs, node.rhs with
      | some l, some r => do
        let a ← genAddr fuel l
        let rv ← genExpr fuel r
        .ok (a ++ ["  push %rax"] ++ rv ++ ["  pop %rdi", "  mov %rax, (%rdi)"])
      | _, _ => .error .panicked
    | _ =>
      match node.rhs, node.lhs with
      | some r, some l => do
        let rv ← genExpr fuel r
        let lv ← genExpr fuel l
        .ok (rv ++ ["  push %rax"] ++ lv ++ ["  pop %rdi"] ++ binOpInstrs node.kind)
      | _, _ => .error .panicked

end

/-- `makecounter`'s closure: the captured state is the next value to hand
out (initially 1); a call returns the current value and increments. -/
def counterCall (i : Nat) : Nat × Nat := (i, i + 1)

/-- The values of `n` successive counter calls starting from state `i`. -/
def counterRun : Nat → Nat → List Nat
  | _, 0 => []
  | i, n + 1 =>
    let (v, i') := counterCall i
    v :: counterRun i' n

/-- One emitted line of `genStmt` output: an instruction line printed
verbatim, or a label definition line, printed as
`base ++ toString n ++ ":"` (Go's `fmt.Printf(".L.else.%d:\n", c)` etc.). -/
inductive AsmLine where
  | ins (s : String)
  | lbl (base : String) (n : Nat)
  deriving DecidableEq, Repr

/-- The text of a line as the Go code prints it. -/
def AsmLine.render : AsmLine → String
  | .ins s => s
  | .lbl base n => base ++ toString n ++ ":"

/-- `genExpr(node)` on a child slot that the Go code reads
unconditionally: a Go-nil operand would be a panic. -/
def genExprReq (fuel : Nat) : Option Node → Except CErr (List String)
  | some e => genExpr fuel e
  | none => .error .panicked

/-- The `if node.increment != nil { genExpr(node.increment) }` pattern:
an absent operand emits nothing. -/
def genExprOpt (fuel : Nat) : Option Node → Except CErr (List String)
  | some e => genExpr fuel e
  | none => .ok []

/-- The `if node.condition != nil { … }` block of the FOR case: condition
code followed by `cmp $0, %rax` and the jump out of the loop, or nothing
when the condition is absent. -/
def genForCondPart (fuel : Nat) (c : Nat) : Option Node → Except CErr (List AsmLine)
  | some e => do
    let o ← genExpr fuel e
    .ok (o.map .ins ++ [.ins "  cmp $0, %rax", .ins ("  je  .L.end." ++ toString c)])
  | none => .ok []

mutual

/-- `genStmt(node)` with the label counter threaded explicitly (the Go
counter is process-global mutable state).  IF and FOR/WHILE statements
draw one fresh counter value `c` at their start and emit their
`.L.else.c` / `.L.end.c` / `.L.begin.c` labels with that suffix.  The Go
switch has no default case: other kinds emit nothing. -/
def genStmt : Nat → Nat → Node → Except CErr (List AsmLine × Nat)
  | 0, _, _ => .error .outOfFuel
  | fuel + 1, cnt, node =>
    match node.kind with
    | .NodeExprStmt => do
      let out ← genExprReq fuel node.lhs
      .ok (out.map .ins, cnt)
    | .NodeBlock => genStmtList fuel cnt node.body
    | .NodeReturn => do
      let out ← genExprReq fuel node.lhs
      .ok (out.map .ins ++ [.ins "  jmp .L.return"], cnt)
    | .NodeIf =>
      match counterCall cnt with
      | (c, cnt) => do
        let condOut ← genExprReq fuel node.condition
        let rt ← genStmtReq fuel cnt node.thenBranch
        let re ← genStmtOpt fuel rt.2 node.elseBranch
        .ok (condOut.map .ins ++
             [.ins "  cmp $0, %rax", .ins ("  je  .L.else." ++ toString c)] ++
             rt.1 ++
             [.ins ("  jmp .L.end." ++ toString c), .lbl ".L.else." c] ++
             re.1 ++ [.lbl ".L.end." c], re.2)
    | .NodeFor =>
      match counterCall cnt with
      | (c, cnt) => do
        let ri ← genStmtOpt fuel cnt node.initializer
        let condOut ← genForCondPart fuel c node.condition
        let rb ← genStmtReq fuel ri.2 node.thenBranch
        let incOut ← genExprOpt fuel node.increment
        .ok (ri.1 ++ [.lbl ".L.begin." c] ++ condOut ++ rb.1 ++
             incOut.map .ins ++
             [.ins ("  jmp .L.begin." ++ toString c), .lbl ".L.end." c], rb.2)
    | _ => .ok ([], cnt)
termination_by structural fuel cnt node => fuel

/-- The `for n := node.body; n != nil; n = n.next` loop of the BLOCK case
of `genStmt`. -/
def genStmtList : Nat → Nat → List Node → Except CErr (List AsmLine × Nat)
  | 0, _, _ => .error .outOfFuel
  | _ + 1, cnt, [] => .ok ([], cnt)
  | fuel + 1, cnt, n :: ns => do
    let r ← genStmt fuel cnt n
    let r' ← genStmtList fuel r.2 ns
    .ok (r.1 ++ r'.1, r'.2)
termination_by structural fuel cnt ns => fuel

/-- `genStmt` on a statement slot the Go code visits only when non-nil
(`else` branch, `for` initializer). -/
def genStmtOpt : Nat → Nat → Option Node → Except CErr (List AsmLine × Nat)
  | _, cnt, none => .ok ([], cnt)
  | 0, _, some _ => .error .outOfFuel
  | fuel + 1, cnt, some s => genStmt fuel cnt s
termination_by structural fuel cnt s => fuel

/-- `genStmt` on a statement slot the Go code visits unconditionally
(`then` branch, loop body): a Go-nil node would be a panic. -/
def genStmtReq : Nat → Nat → Option Node → Except CErr (List AsmLine × Nat)
  | _, _, none => .error .panicked
  | 0, _, some _ => .error .outOfFuel
  | fuel + 1, cnt, some s => genStmt fuel cnt s
termination_by structural fuel cnt s => fuel

end

/-- The integer suffixes of the label definition lines in an output. -/
def lblsOf (out : List AsmLine) : List Nat :=
  out.filterMap fun l =>
    match l with
    | .lbl _ k => some k
    | .ins _ => none

/-! ### Claim theorems: stack layout (C6) -/

theorem assignLvarOffsetsLoop_spec :
    ∀ (l : List Object) (off : Nat),
      (assignLvarOffsetsLoop off l).2 = off + 8 * l.length ∧
      (assignLvarOffsetsLoop off l).1.length = l.length ∧
      ∀ i, i < l.length →
        ((assignLvarOffsetsLoop off l).1.getD i ⟨"", .tpint, 0⟩).offset =
          -(((off : Int) + 8 * (i + 1))) := by
  intro l
  induction l with
  | nil => intro off; simp [assignLvarOffsetsLoop]
  | cons v vs ih =>
    intro off
    obtain ⟨h1, h2, h3⟩ := ih (off + 8)
    have hstep : assignLvarOffsetsLoop off (v :: vs) =
        ({ v with offset := -(((off + 8 : Nat) : Int)) } ::
            (assignLvarOffsetsLoop (off + 8) vs).1,
          (assignLvarOffsetsLoop (off + 8) vs).2) := by
      simp [assignLvarOffsetsLoop]
    rw [hstep]
    refine ⟨?_, ?_, ?_⟩
    · rw [h1]
      simp [List.length_cons]
      omega
    · simp [h2]
    · intro i hi
      match i with
      | 0 =>
        simp only [List.getD_cons_zero]
        show -(((off + 8 : Nat) : Int)) = _
        push_cast
        ring
      | i + 1 =>
        have h := h3 i (by simpa using hi)
        simp only [List.getD_cons_succ]
        rw [h]
        push_cast
        ring

/-- C6: after `assignLvarOffsets`, the k-th Object in the locals list
(k = i+1 with i zero-based) has offset −8k, and `stackSize` is
`(8·L + 15) / 16 · 16` for L locals; hence `stackSize` is a multiple of 16
and at least `8·L`. -/
theorem c6_offsets_and_stack_size :
    ∀ (fn : Function),
      (∀ i, i < (assignLvarOffsets fn).locals.length →
        (((assignLvarOffsets fn).locals.getD i ⟨"", .tpint, 0⟩).offset =
          -(8 * ((i : Int) + 1)))) ∧
      (assignLvarOffsets fn).stackSize = (8 * fn.locals.length + 15) / 16 * 16 ∧
      16 ∣ (assignLvarOffsets fn).stackSize ∧
      8 * fn.locals.length ≤ (assignLvarOffsets fn).stackSize := by
  intro fn
  obtain ⟨h1, h2, h3⟩ := assignLvarOffsetsLoop_spec fn.locals 0
  have hsz : (assignLvarOffsets fn).stackSize = (8 * fn.locals.length + 15) / 16 * 16 := by
    simp [assignLvarOffsets, alignTo, h1]
  refine ⟨?_, hsz, ?_, ?_⟩
  · intro i hi
    have hlen : (assignLvarOffsets fn).locals.length = fn.locals.length := by
      simp [assignLvarOffsets, h2]
    have hoff := h3 i (by omega)
    have : (assignLvarOffsets fn).locals = (assignLvarOffsetsLoop 0 fn.locals).1 := by
      simp [assignLvarOffsets]
    rw [this, hoff]
    push_cast
    ring
  · rw [hsz]
    exact dvd_mul_left 16 _
  · rw [hsz]
    omega

/-- Witness for C6: one int local gets offset −8 and the frame is padded
to 16 bytes. -/
theorem c6_offsets_and_stack_size_witness :
    ((assignLvarOffsets ⟨[], [⟨"a", .tpint, 0⟩], 0⟩).locals.getD 0
      ⟨"", .tpint, 0⟩).offset = -(8 * ((0 : Int) + 1)) ∧
    (assignLvarOffsets ⟨[], [⟨"a", .tpint, 0⟩], 0⟩).stackSize =
      (8 * [(⟨"a", .tpint, 0⟩ : Object)].length + 15) / 16 * 16 :=
  ⟨(c6_offsets_and_stack_size ⟨[], [⟨"a", .tpint, 0⟩], 0⟩).1 0 (by decide),
   (c6_offsets_and_stack_size ⟨[], [⟨"a", .tpint, 0⟩], 0⟩).2.1⟩

/-! ### Claim theorems: binary expression emission (C7) -/

/-- C7: for every binary node of kind ADD, SUB, MUL, DIV, EQ, NE, LT, LE,
`genExpr` emits exactly: the right operand's code, `push %rax`, the left
operand's code, `pop %rdi`, then the operator tail; for the comparisons
the tail is `cmp %rdi, %rax`, the matching set instruction on `%al`
(`setl` thus computes lhs < rhs, with lhs in RAX and rhs in RDI), and
`movzb %al, %rax`. -/
theorem c7_binary_emission_order :
    ∀ (f : Nat) (lhs rhs : Node) (tok : Tok),
      (genExpr (f + 1) (NewBinary .NodeAdd lhs rhs tok) = do
        let rv ← genExpr f rhs
        let lv ← genExpr f lhs
        .ok (rv ++ ["  push %rax"] ++ lv ++ ["  pop %rdi"] ++ ["  add %rdi, %rax"])) ∧
      (genExpr (f + 1) (NewBinary .NodeSub lhs rhs tok) = do
        let rv ← genExpr f rhs
        let lv ← genExpr f lhs
        .ok (rv ++ ["  push %rax"] ++ lv ++ ["  pop %rdi"] ++ ["  sub %rdi, %rax"])) ∧
      (genExpr (f + 1) (NewBinary .NodeMul lhs rhs tok) = do
        let rv ← genExpr f rhs
        let lv ← genExpr f lhs
        .ok (rv ++ ["  push %rax"] ++ lv ++ ["  pop %rdi"] ++ ["  imul %rdi, %rax"])) ∧
      (genExpr (f + 1) (NewBinary .NodeDiv lhs rhs tok) = do
        let rv ← genExpr f rhs
        let lv ← genExpr f lhs
        .ok (rv ++ ["  push %rax"] ++ lv ++ ["  pop %rdi"] ++
          ["  cqo", "  idiv %rdi"])) ∧
      (genExpr (f + 1) (NewBinary .NodeEql lhs rhs tok) = do
        let rv ← genExpr f rhs
        let lv ← genExpr f lhs
        .ok (rv ++ ["  push %rax"] ++ lv ++ ["  pop %rdi"] ++
          ["  cmp %rdi, %rax", "  sete %al", "  movzb %al, %rax"])) ∧
      (genExpr (f + 1) (NewBinary .NodeNeq lhs rhs tok) = do
        let rv ← genExpr f rhs
        let lv ← genExpr f lhs
        .ok (rv ++ ["  push %rax"] ++ lv ++ ["  pop %rdi"] ++
          ["  cmp %rdi, %rax", "  setne %al", "  movzb %al, %rax"])) ∧
      (genExpr (f + 1) (NewBinary .NodeLss lhs rhs tok) = do
        let rv ← genExpr f rhs
        let lv ← genExpr f lhs
        .ok (rv ++ ["  push %rax"] ++ lv ++ ["  pop %rdi"] ++
          ["  cmp %rdi, %rax", "  setl %al", "  movzb %al, %rax"])) ∧
      (genExpr (f + 1) (NewBinary .NodeLeq lhs rhs tok) = do
        let rv ← genExpr f rhs
        let lv ← genExpr f lhs
        .ok (rv ++ ["  push %rax"] ++ lv ++ ["  pop %rdi"] ++
          ["  cmp %rdi, %rax", "  setle %al", "  movzb %al, %rax"])) := by
  intro f lhs rhs tok
  refine ⟨?_, ?_, ?_, ?_, ?_, ?_, ?_, ?_⟩ <;>
    (simp only [NewBinary]; rw [genExpr]; rfl)

/-! ### Label bookkeeping lemmas (towards C8) -/

@[simp] theorem lblsOf_nil : lblsOf [] = [] := rfl

@[simp] theorem lblsOf_append (a b : List AsmLine) :
    lblsOf (a ++ b) = lblsOf a ++ lblsOf b := by
  simp [lblsOf]

@[simp] theorem lblsOf_cons_ins (s : String) (rest : List AsmLine) :
    lblsOf (.ins s :: rest) = lblsOf rest := by
  simp [lblsOf]

@[simp] theorem lblsOf_cons_lbl (b : String) (n : Nat) (rest : List AsmLine) :
    lblsOf (.lbl b n :: rest) = n :: lblsOf rest := by
  simp [lblsOf]

@[simp] theorem lblsOf_map_ins (l : List String) :
    lblsOf (l.map .ins) = [] := by
  induction l with
  | nil => rfl
  | cons s rest ih => simpa [lblsOf] using ih

theorem bind_eq_ok {ε α β : Type} {x : Except ε α} {f : α → Except ε β} {b : β}
    (h : x >>= f = .ok b) : ∃ a, x = .ok a ∧ f a = .ok b := by
  cases x with
  | ok a => exact ⟨a, rfl, h⟩
  | error e => simp at h

/-- Counter/label invariant of the statement generator, proved for every
fuel value up to a bound (plain strong induction on the bound): a
successful run from counter state `cnt` ends in a state `cnt' ≥ cnt`, and
every label suffix it emits lies in `[cnt, cnt')`. -/
theorem gen_lbl_bounds_aux :
    ∀ fuel g, g ≤ fuel →
      (∀ cnt n out cnt', genStmt g cnt n = .ok (out, cnt') →
        cnt ≤ cnt' ∧ ∀ k ∈ lblsOf out, cnt ≤ k ∧ k < cnt') ∧
      (∀ cnt ns out cnt', genStmtList g cnt ns = .ok (out, cnt') →
        cnt ≤ cnt' ∧ ∀ k ∈ lblsOf out, cnt ≤ k ∧ k < cnt') := by
  intro fuel
  induction fuel with
  | zero =>
    intro g hg
    obtain rfl : g = 0 := by omega
    constructor <;> intro cnt n out cnt' h <;> simp [genStmt, genStmtList] at h
  | succ f ih =>
    intro g hg
    rcases Nat.lt_or_ge g (f + 1) with hlt | hge
    · exact ih g (by omega)
    obtain rfl : g = f + 1 := by omega
    have hReq : ∀ cnt o out cnt', genStmtReq f cnt o = .ok (out, cnt') →
        cnt ≤ cnt' ∧ ∀ k ∈ lblsOf out, cnt ≤ k ∧ k < cnt' := by
      intro cnt o out cnt' h
      cases o with
      | none => simp [genStmtReq] at h
      | some s =>
        rcases Nat.eq_zero_or_pos f with rfl | hf0
        · simp [genStmtReq] at h
        · obtain ⟨f', rfl⟩ : ∃ f', f = f' + 1 := ⟨f - 1, by omega⟩
          simp only [genStmtReq] at h
          exact (ih f' (by omega)).1 cnt s out cnt' h
    have hOpt : ∀ cnt o out cnt', genStmtOpt f cnt o = .ok (out, cnt') →
        cnt ≤ cnt' ∧ ∀ k ∈ lblsOf out, cnt ≤ k ∧ k < cnt' := by
      intro cnt o out cnt' h
      cases o with
      | none =>
        simp only [genStmtOpt] at h
        injection h with h
        injection h with h1 h2
        subst h1
        subst h2
        simp
      | some s =>
        rcases Nat.eq_zero_or_pos f with rfl | hf0
        · simp [genStmtOpt] at h
        · obtain ⟨f', rfl⟩ : ∃ f', f = f' + 1 := ⟨f - 1, by omega⟩
          simp only [genStmtOpt] at h
          exact (ih f' (by omega)).1 cnt s out cnt' h
    constructor
    · intro cnt n out cnt' h
      cases n with
      | mk k l r tp tok cond thenB elseB ini inc body v val =>
        cases k <;>
          simp only [genStmt, Node.kind, Node.lhs, Node.rhs, Node.body,
            Node.condition, Node.thenBranch, Node.elseBranch, Node.initializer,
            Node.increment, counterCall] at h
        case NodeAdd | NodeSub | NodeMul | NodeDiv | NodeEql | NodeNeq
          | NodeLss | NodeLeq | NodeAsg | NodeNeg | NodeAddr | NodeDeref
          | NodeVar | NodeNum =>
          injection h with h
          injection h with h1 h2
          subst h1
          subst h2
          simp
        case NodeExprStmt =>
          obtain ⟨o, _, h2⟩ := bind_eq_ok h
          injection h2 with h2
          injection h2 with h3 h4
          subst h3
          subst h4
          simp
        case NodeBlock => exact (ih f (by omega)).2 cnt body out cnt' h
        case NodeReturn =>
          obtain ⟨o, _, h2⟩ := bind_eq_ok h
          injection h2 with h2
          injection h2 with h3 h4
          subst h3
          subst h4
          simp
        case NodeIf =>
          obtain ⟨condOut, _, h⟩ := bind_eq_ok h
          obtain ⟨rt, hrt, h⟩ := bind_eq_ok h
          obtain ⟨re, hre, h⟩ := bind_eq_ok h
          injection h with h
          injection h with h3 h4
          subst h3
          subst h4
          have hthen := hReq (cnt + 1) thenB rt.1 rt.2 (by rw [hrt])
          have helse := hOpt rt.2 elseB re.1 re.2 (by rw [hre])
          refine ⟨by omega, ?_⟩
          intro k hk
          simp at hk
          have A : k = cnt ∨ k ∈ lblsOf rt.1 ∨ k ∈ lblsOf re.1 := by tauto
          rcases A with rfl | hA | hA
          · constructor
            · omega
            · have := hthen.1
              have := helse.1
              omega
          · have := hthen.2 k hA
            have := helse.1
            constructor <;> omega
          · have := helse.2 k hA
            constructor <;> omega
        case NodeFor =>
          obtain ⟨ri, hri, h⟩ := bind_eq_ok h
          obtain ⟨condOut, hco, h⟩ := bind_eq_ok h
          obtain ⟨rb, hrb, h⟩ := bind_eq_ok h
          obtain ⟨incOut, _, h⟩ := bind_eq_ok h
          injection h with h
          injection h with h3 h4
          subst h3
          subst h4
          have hinit := hOpt (cnt + 1) ini ri.1 ri.2 (by rw [hri])
          have hbody := hReq ri.2 thenB rb.1 rb.2 (by rw [hrb])
          have hcnd : lblsOf condOut = [] := by
            cases cond with
            | none =>
              simp only [genForCondPart] at hco
              injection hco with hco
              subst hco
              rfl
            | some e =>
              simp only [genForCondPart] at hco
              obtain ⟨o, _, h5⟩ := bind_eq_ok hco
              injection h5 with h5
              subst h5
              simp
          refine ⟨by omega, ?_⟩
          intro k hk
          simp [hcnd] at hk
          have A : k = cnt ∨ k ∈ lblsOf ri.1 ∨ k ∈ lblsOf rb.1 := by tauto
          rcases A with rfl | hA | hA
          · constructor
            · omega
            · have := hinit.1
              have := hbody.1
              omega
          · have := hinit.2 k hA
            have := hbody.1
            constructor <;> omega
          · have := hbody.2 k hA
            constructor <;> omega
    · intro cnt ns out cnt' h
      cases ns with
      | nil =>
        simp only [genStmtList] at h
        injection h with h
        injection h with h1 h2
        subst h1
        subst h2
        simp
      | cons n ns =>
        simp only [genStmtList] at h
        obtain ⟨r1, hr1, h⟩ := bind_eq_ok h
        obtain ⟨r2, hr2, h⟩ := bind_eq_ok h
        injection h with h
        injection h with h3 h4
        subst h3
        subst h4
        have b1 := (ih f (by omega)).1 cnt n r1.1 r1.2 (by rw [hr1])
        have b2 := (ih f (by omega)).2 r1.2 ns r2.1 r2.2 (by rw [hr2])
        refine ⟨by omega, ?_⟩
        intro k hk
        simp at hk
        rcases hk with hk | hk
        · have := b1.2 k hk
          have := b2.1
          constructor <;> omega
        · have := b2.2 k hk
          have := b1.1
          constructor <;> omega

/-- The invariant at every fuel value. -/
theorem gen_lbl_bounds :
    ∀ fuel : Nat,
      (∀ cnt n out cnt', genStmt fuel cnt n = .ok (out, cnt') →
        cnt ≤ cnt' ∧ ∀ k ∈ lblsOf out, cnt ≤ k ∧ k < cnt') ∧
      (∀ cnt ns out cnt', genStmtList fuel cnt ns = .ok (out, cnt') →
        cnt ≤ cnt' ∧ ∀ k ∈ lblsOf out, cnt ≤ k ∧ k < cnt') :=
  fun fuel => gen_lbl_bounds_aux fuel fuel (Nat.le_refl fuel)

theorem counterRun_getD :
    ∀ (n i j : Nat), j < n → (counterRun i n).getD j 0 = i + j := by
  intro n
  induction n with
  | zero => intro i j h; omega
  | succ m ih =>
    intro i j h
    match j with
    | 0 => simp [counterRun, counterCall]
    | j + 1 =>
      have := ih (i + 1) j (by omega)
      simp only [counterRun, counterCall, List.getD_cons_succ]
      rw [this]
      omega

/-- C8: the label counter starts at 1 and its successive calls return
1, 2, 3, … in order; and two statements generated one after the other
(the counter state threaded from the first into the second) can never
emit `.L.begin` / `.L.end` / `.L.else` label definitions sharing an
integer suffix, because each run only uses suffixes in its own
half-open counter interval. -/
theorem c8_label_suffixes_unique :
    (∀ n j, j < n → (counterRun 1 n).getD j 0 = j + 1) ∧
    (∀ (f₁ f₂ c : Nat) (n₁ n₂ : Node) (out₁ out₂ : List AsmLine) (c₁ c₂ : Nat),
      genStmt f₁ c n₁ = .ok (out₁, c₁) → genStmt f₂ c₁ n₂ = .ok (out₂, c₂) →
      ∀ k, k ∈ lblsOf out₁ → k ∉ lblsOf out₂) := by
  constructor
  · intro n j h
    rw [counterRun_getD n 1 j h]
    omega
  · intro f₁ f₂ c n₁ n₂ out₁ out₂ c₁ c₂ h₁ h₂ k hk hk2
    have b1 := ((gen_lbl_bounds f₁).1 c n₁ out₁ c₁ h₁).2 k hk
    have b2 := ((gen_lbl_bounds f₂).1 c₁ n₂ out₂ c₂ h₂).2 k hk2
    omega

/-- Witness for C8: the third counter call returns 3; and after an `if`
statement consumed suffix 1, the following `while` loop uses suffix 2, so
suffix 1 appears in no label of its output. -/
theorem c8_label_suffixes_unique_witness :
    (counterRun 1 3).getD 2 0 = 3 ∧
    (1 : Nat) ∉ lblsOf [.lbl ".L.begin." 2, .ins "  jmp .L.begin.2", .lbl ".L.end." 2] :=
  ⟨c8_label_suffixes_unique.1 3 2 (by omega),
   c8_label_suffixes_unique.2 5 5 1
     (((NewNode .NodeIf ⟨.IF, 0, 0, 2, "if"⟩).withCondition
        (some (NewNumber 1 ⟨.NUM, 1, 3, 1, "1"⟩))).withThenBranch
        (some (NewNode .NodeBlock ⟨.LBRACE, 0, 5, 1, "\x7b"⟩)))
     ((NewNode .NodeFor ⟨.WHILE, 0, 0, 5, "while"⟩).withThenBranch
        (some (NewNode .NodeBlock ⟨.LBRACE, 0, 6, 1, "\x7b"⟩)))
     [.ins "  mov $1, %rax", .ins "  cmp $0, %rax", .ins "  je  .L.else.1",
      .ins "  jmp .L.end.1", .lbl ".L.else." 1, .lbl ".L.end." 1]
     [.lbl ".L.begin." 2, .ins "  jmp .L.begin.2", .lbl ".L.end." 2]
     2 3 (by rfl) (by rfl) 1 (by decide)⟩

/-- Rendering check (not tied to a claim): the lines of the `while` output
above print exactly as the Go `fmt.Printf` calls would. -/
theorem render_sample :
    ([.lbl ".L.begin." 2, .ins "  jmp .L.begin.2",
      .lbl ".L.end." 2] : List AsmLine).map AsmLine.render =
      [".L.begin.2:", "  jmp .L.begin.2", ".L.end.2:"] := by
  rfl

end Gocc

